import Mathlib

/-!
Verification development for the RSS feed aggregation pipeline in `src/main.py`.

The Python source is shallowly embedded: pure functions become Lean functions,
the network and the feeds configuration become explicit parameters, datetimes
become integer microsecond counts since 0001-01-01 00:00:00 (the order- and
arithmetic-faithful image of naive `datetime` values), and Python exceptions
that are caught by the code become `Except Unit` results.

Library models (functions of the Python standard library or third-party
libraries that the source calls) are marked `Library model` in their doc
comments; each such model notes the restriction it makes.  Everything else is
translated directly from `src/main.py`.
-/

/-! ## Character utilities -/

/-- The whitespace characters recognised by Python `str.split()` with no
arguments (ASCII model: space, tab, newline, carriage return, vertical tab,
form feed; the source strings handled by the pipeline are ASCII-spaced). -/
def isSpaceCh (c : Char) : Bool :=
  c = ' ' || c = '\t' || c = '\n' || c = '\r' || c = '\x0b' || c = '\x0c'

/-- Helper for `splitWs`: scans the characters, accumulating the current word. -/
def splitWsAux : List Char → List Char → List (List Char)
  | [], cur => if cur.isEmpty then [] else [cur]
  | c :: cs, cur =>
    if isSpaceCh c then
      (if cur.isEmpty then splitWsAux cs [] else cur :: splitWsAux cs [])
    else splitWsAux cs (cur ++ [c])

/-- Library model: Python `str.split()` with no argument — splits on runs of
whitespace, discarding empty chunks and leading/trailing whitespace. -/
def splitWs (cs : List Char) : List (List Char) := splitWsAux cs []

/-- Library model: Python `' '.join(words)` — interleaves single spaces. -/
def joinWords : List (List Char) → List Char
  | [] => []
  | [w] => w
  | w :: ws => w ++ ' ' :: joinWords ws

/-- `' '.join(text.split())` from line 64 of the source: collapse whitespace
runs to single spaces and trim. -/
def normalizeWs (cs : List Char) : List Char := joinWords (splitWs cs)

/-- Library model: Python `html.unescape`, restricted to the five basic named
character references written with a trailing semicolon (`&amp;` `&lt;` `&gt;`
`&quot;` `&apos;`).  Faithful on inputs that contain no other character
references; numeric references and the long tail of HTML5 names are outside
the model (no claim depends on them). -/
def unescape : List Char → List Char
  | [] => []
  | '&' :: 'a' :: 'm' :: 'p' :: ';' :: cs => '&' :: unescape cs
  | '&' :: 'l' :: 't' :: ';' :: cs => '<' :: unescape cs
  | '&' :: 'g' :: 't' :: ';' :: cs => '>' :: unescape cs
  | '&' :: 'q' :: 'u' :: 'o' :: 't' :: ';' :: cs => '"' :: unescape cs
  | '&' :: 'a' :: 'p' :: 'o' :: 's' :: ';' :: cs => '\'' :: unescape cs
  | c :: cs => c :: unescape cs

/-- After a `<`, find the matching `>` of the regex `<[^>]+>`: at least one
character must stand between them.  Returns the suffix after the `>`. -/
def findGt : List Char → Option (List Char)
  | [] => none
  | c :: cs => if c = '>' then none else dropToGt cs
where
  dropToGt : List Char → Option (List Char)
    | [] => none
    | c :: cs => if c = '>' then some cs else dropToGt cs

/-- Fuel-indexed scanner for `stripTags` (fuel is the list length, which
bounds the number of steps; each step consumes at least one character). -/
def stripTagsGo : Nat → List Char → List Char
  | 0, l => l
  | _ + 1, [] => []
  | fuel + 1, c :: cs =>
    if c = '<' then
      match findGt cs with
      | some rest => stripTagsGo fuel rest
      | none => c :: stripTagsGo fuel cs
    else c :: stripTagsGo fuel cs

/-- Library model: `re.compile(r'<[^>]+>').sub('', s)` from lines 55–57 —
removes every leftmost non-overlapping `<...>` group with nonempty body. -/
def stripTags (l : List Char) : List Char := stripTagsGo l.length l

/-- Boolean prefix test on character lists. -/
def isPrefixL : List Char → List Char → Bool
  | [], _ => true
  | _ :: _, [] => false
  | p :: ps, c :: cs => p = c && isPrefixL ps cs

/-- Boolean substring test on character lists. -/
def containsSub (pat : List Char) : List Char → Bool
  | [] => isPrefixL pat []
  | c :: cs => isPrefixL pat (c :: cs) || containsSub pat cs

/-- Library model: `re.search(r'<(script|style|iframe)', s, re.IGNORECASE)`
from line 56 — a case-insensitive substring search (ASCII lowering model). -/
def hasScriptish (l : List Char) : Bool :=
  let low := l.map Char.toLower
  containsSub "<script".data low || containsSub "<style".data low ||
    containsSub "<iframe".data low

/-- Library model: `BeautifulSoup(s, "html.parser").get_text()` from lines
60–61, approximated as tag removal.  The claims about `clean_summary` only
depend on the whitespace normalization applied after this call, so the
approximation does not influence any settled claim. -/
def bs_get_text (l : List Char) : List Char := stripTags l

/-- `clean_summary` from lines 43–65 of the source.  The final
`encode('utf-8', errors='ignore').decode('utf-8')` is the identity on valid
Unicode text, which is all a Lean `String` can hold, so it is dropped. -/
def clean_summary (s : String) : String :=
  if s = "" then "" else
  let u := unescape s.data
  if u.contains '<' = false then String.mk u
  else
    let text := if hasScriptish u then bs_get_text u else stripTags u
    String.mk (normalizeWs text)

/-! ## Calendar arithmetic

Naive `datetime` values are embedded as microsecond counts since
0001-01-01 00:00:00 in the proleptic Gregorian calendar; this embedding is a
strict order isomorphism on valid datetimes, so `datetime` comparisons become
integer comparisons and `timedelta` arithmetic becomes integer arithmetic. -/

/-- Gregorian leap-year rule. -/
def isLeap (y : Nat) : Bool := (y % 4 = 0 && y % 100 ≠ 0) || y % 400 = 0

/-- Length of a month (months are 1-based; `0` for out-of-range input). -/
def daysInMonth (y mo : Nat) : Nat :=
  match mo with
  | 1 => 31 | 2 => if isLeap y then 29 else 28 | 3 => 31 | 4 => 30
  | 5 => 31 | 6 => 30 | 7 => 31 | 8 => 31 | 9 => 30 | 10 => 31
  | 11 => 30 | 12 => 31 | _ => 0

/-- Days in the months strictly before month `mo` of year `y`. -/
def daysBeforeMonth (y mo : Nat) : Nat :=
  (match mo with
   | 1 => 0 | 2 => 31 | 3 => 59 | 4 => 90 | 5 => 120 | 6 => 151
   | 7 => 181 | 8 => 212 | 9 => 243 | 10 => 273 | 11 => 304 | _ => 334) +
  (if 3 ≤ mo && isLeap y then 1 else 0)

/-- Days in the years strictly before year `y` (for `y ≥ 1`). -/
def daysBeforeYear (y : Nat) : Nat :=
  365 * (y - 1) + (y - 1) / 4 + (y - 1) / 400 - (y - 1) / 100

/-- Proleptic Gregorian ordinal, as in `datetime.toordinal` (0001-01-01 is 1). -/
def toOrdinal (y mo d : Nat) : Nat := daysBeforeYear y + daysBeforeMonth y mo + d

/-- Microseconds since 0001-01-01 00:00:00 of a naive datetime. -/
def naiveMicros (y mo d h mi s : Nat) : Nat :=
  ((toOrdinal y mo d - 1) * 86400 + h * 3600 + mi * 60 + s) * 1000000

/-- The embedding of `datetime.min` (used as the sort key for articles whose
published string does not renormalize, line 270 of the source). -/
def datetimeMinMicros : Int := 0

/-- The embedding of `datetime.max` (the largest representable instant;
conversions past it raise `OverflowError` in Python). -/
def datetimeMaxMicros : Int := naiveMicros 9999 12 31 23 59 59 + 999999

/-! ## strptime format parsers

`DATE_FORMATS` of the source (lines 20–27) lists six `strptime` patterns.
Each is embedded as a parser returning the broken-down fields plus the UTC
offset in microseconds for timezone-aware patterns.  The embedding follows
CPython `_strptime` semantics: `%Y` is exactly four ASCII digits, `%m %d %H
%M %S` are one or two digits within their ranges, literal whitespace in a
pattern matches a nonempty whitespace run, matching is anchored at both ends,
`%Z` accepts the names UTC and GMT case-insensitively (the locale-dependent
local-timezone names are outside the model) and yields a naive result, and
`%z` accepts `[+-]HH[:]MM[[:]SS[.ffffff]]` or a literal uppercase `Z` with
total magnitude under 24 hours.  Field combinations the `datetime`
constructor rejects (such as a day beyond the month length) make the pattern
fail, exactly as the resulting `ValueError` moves `parse_date` to the next
pattern.  ASCII digits model the `\d` character class. -/

structure PDT where
  y : Nat
  mo : Nat
  d : Nat
  h : Nat
  mi : Nat
  s : Nat
  off : Option Int
deriving DecidableEq

/-- Numeric value of a list of ASCII digits. -/
def digitsToNat (l : List Char) : Nat := l.foldl (fun n c => 10 * n + (c.toNat - 48)) 0

/-- Nonempty all-digit test. -/
def allDigits (l : List Char) : Bool := !l.isEmpty && l.all Char.isDigit

/-- One- or two-digit numeric field with an inclusive range. -/
def num2 (l : List Char) (lo hi : Nat) : Option Nat :=
  if allDigits l && l.length ≤ 2 && lo ≤ digitsToNat l && digitsToNat l ≤ hi then
    some (digitsToNat l)
  else none

/-- Exactly-four-digit numeric field (`%Y`). -/
def num4 (l : List Char) : Option Nat :=
  if allDigits l && l.length = 4 then some (digitsToNat l) else none

/-- Split on every occurrence of a separator character, keeping empty chunks
(the behaviour of `str.split(sep)` with an explicit separator). -/
def splitOnCh (sep : Char) : List Char → List (List Char)
  | [] => [[]]
  | c :: cs =>
    if c = sep then [] :: splitOnCh sep cs
    else
      match splitOnCh sep cs with
      | [] => [[c]]
      | w :: ws => (c :: w) :: ws

/-- `%Y-%m-%d` portion: year, month, day with `strptime` digit ranges. -/
def parseDateWord (cs : List Char) : Option (Nat × Nat × Nat) :=
  match splitOnCh '-' cs with
  | [ys, ms, ds] =>
    match num4 ys, num2 ms 1 12, num2 ds 1 31 with
    | some y, some mo, some d => some (y, mo, d)
    | _, _, _ => none
  | _ => none

/-- `%H:%M:%S` portion. -/
def parseTimeWord (cs : List Char) : Option (Nat × Nat × Nat) :=
  match splitOnCh ':' cs with
  | [hs, ms, ss] =>
    match num2 hs 0 23, num2 ms 0 59, num2 ss 0 59 with
    | some h, some mi, some s => some (h, mi, s)
    | _, _, _ => none
  | _ => none

/-- The validity check of the `datetime` constructor on a parsed date. -/
def validDMY (y mo d : Nat) : Bool := 1 ≤ y && 1 ≤ d && d ≤ daysInMonth y mo

/-- Build a parse result subject to constructor validity. -/
def mkPDT (y mo d h mi s : Nat) (off : Option Int) : Option PDT :=
  if validDMY y mo d then some ⟨y, mo, d, h, mi, s, off⟩ else none

/-- A format pattern containing literal whitespace matches no leading or
trailing whitespace (the match is anchored and only interior literal
whitespace maps to `\s+`). -/
def noEdgeWs (cs : List Char) : Bool :=
  (match cs with | [] => true | c :: _ => !isSpaceCh c) &&
  (match cs.reverse with | [] => true | c :: _ => !isSpaceCh c)

/-- Two leading ASCII digits. -/
def take2Digits : List Char → Option (Nat × List Char)
  | a :: b :: rest =>
    if a.isDigit && b.isDigit then
      some (10 * (a.toNat - 48) + (b.toNat - 48), rest)
    else none
  | _ => none

/-- Fractional part of a `%z` offset: one to six digits, scaled to µs. -/
def fracMicros (l : List Char) : Option Int :=
  if allDigits l && l.length ≤ 6 then
    some ((digitsToNat l * 10 ^ (6 - l.length) : Nat) : Int)
  else none

/-- Assemble a `%z` offset, enforcing the strict 24-hour bound that
`datetime.timezone` places on offsets. -/
def mkOffset (sgn : Char) (hh mm ss : Nat) (fr : Int) : Option Int :=
  let t : Int := ((hh * 3600 + mm * 60 + ss : Nat) : Int) * 1000000 + fr
  if t < 86400000000 then some (if sgn = '-' then -t else t) else none

/-- The `%z` directive. -/
def parseOffset : List Char → Option Int
  | ['Z'] => some 0
  | sgn :: rest =>
    if sgn = '+' || sgn = '-' then
      match take2Digits rest with
      | some (hh, r1) =>
        let r1' := match r1 with | ':' :: t => t | _ => r1
        match take2Digits r1' with
        | some (mm, r2) =>
          match r2 with
          | [] => mkOffset sgn hh mm 0 0
          | _ =>
            let r2' := match r2 with | ':' :: t => t | _ => r2
            match take2Digits r2' with
            | some (ss, r3) =>
              match r3 with
              | [] => mkOffset sgn hh mm ss 0
              | '.' :: fr =>
                match fracMicros fr with
                | some f => mkOffset sgn hh mm ss f
                | none => none
              | _ => none
            | none => none
        | none => none
      | none => none
    else none
  | [] => none

/-- Split at the first character satisfying `p`, returning the prefix, the
separator and the suffix. -/
def splitAtFirst (p : Char → Bool) : List Char → Option (List Char × Char × List Char)
  | [] => none
  | c :: cs =>
    if p c then some ([], c, cs)
    else
      match splitAtFirst p cs with
      | some (a, x, b) => some (c :: a, x, b)
      | none => none

/-- ASCII lowering of a word. -/
def lowerL (l : List Char) : List Char := l.map Char.toLower

/-- The `%a` directive followed by the literal comma of the RFC 822 formats. -/
def dayAbbrComma (w : List Char) : Bool :=
  ["mon,", "tue,", "wed,", "thu,", "fri,", "sat,", "sun,"].contains
    (String.mk (lowerL w))

/-- The `%b` directive. -/
def monthAbbr (w : List Char) : Option Nat :=
  match String.mk (lowerL w) with
  | "jan" => some 1 | "feb" => some 2 | "mar" => some 3 | "apr" => some 4
  | "may" => some 5 | "jun" => some 6 | "jul" => some 7 | "aug" => some 8
  | "sep" => some 9 | "oct" => some 10 | "nov" => some 11 | "dec" => some 12
  | _ => none

/-- The `%Z` directive (UTC/GMT; yields a naive datetime in `strptime`). -/
def isTZName (w : List Char) : Bool :=
  let s := String.mk (lowerL w)
  s = "utc" || s = "gmt"

/-- `'%a, %d %b %Y %H:%M:%S %Z'` (RFC 822). -/
def fmt1Parse (cs : List Char) : Option PDT :=
  if noEdgeWs cs then
    match splitWs cs with
    | [wa, wd, wb, wy, wt, wz] =>
      if dayAbbrComma wa && isTZName wz then
        match num2 wd 1 31, monthAbbr wb, num4 wy, parseTimeWord wt with
        | some d, some mo, some y, some (h, mi, s) => mkPDT y mo d h mi s none
        | _, _, _, _ => none
      else none
    | _ => none
  else none

/-- `'%a, %d %b %Y %H:%M:%S %z'` (RFC 822 with numeric offset). -/
def fmt2Parse (cs : List Char) : Option PDT :=
  if noEdgeWs cs then
    match splitWs cs with
    | [wa, wd, wb, wy, wt, wz] =>
      if dayAbbrComma wa then
        match num2 wd 1 31, monthAbbr wb, num4 wy, parseTimeWord wt, parseOffset wz with
        | some d, some mo, some y, some (h, mi, s), some off =>
          mkPDT y mo d h mi s (some off)
        | _, _, _, _, _ => none
      else none
    | _ => none
  else none

/-- `'%Y-%m-%dT%H:%M:%S%z'` (ISO 8601 with offset; the `T` is matched
case-insensitively because `strptime` compiles with `re.IGNORECASE`). -/
def fmt3Parse (cs : List Char) : Option PDT :=
  match splitAtFirst (fun c => c = 'T' || c = 't') cs with
  | some (datePart, _, rest) =>
    match splitAtFirst (fun c => c = '+' || c = '-' || c = 'Z') rest with
    | some (timePart, sgn, offRest) =>
      match parseDateWord datePart, parseTimeWord timePart, parseOffset (sgn :: offRest) with
      | some (y, mo, d), some (h, mi, s), some off => mkPDT y mo d h mi s (some off)
      | _, _, _ => none
    | none => none
  | none => none

/-- `'%Y-%m-%dT%H:%M:%SZ'` (ISO 8601 UTC with a literal, case-insensitive
`Z`; `strptime` leaves the result naive). -/
def fmt4Parse (cs : List Char) : Option PDT :=
  match splitAtFirst (fun c => c = 'T' || c = 't') cs with
  | some (datePart, _, rest) =>
    match rest.reverse with
    | z :: timeRev =>
      if z = 'Z' || z = 'z' then
        match parseDateWord datePart, parseTimeWord timeRev.reverse with
        | some (y, mo, d), some (h, mi, s) => mkPDT y mo d h mi s none
        | _, _ => none
      else none
    | [] => none
  | none => none

/-- `'%Y-%m-%d %H:%M:%S'`. -/
def fmt5Parse (cs : List Char) : Option PDT :=
  if noEdgeWs cs then
    match splitWs cs with
    | [w1, w2] =>
      match parseDateWord w1, parseTimeWord w2 with
      | some (y, mo, d), some (h, mi, s) => mkPDT y mo d h mi s none
      | _, _ => none
    | _ => none
  else none

/-- `'%Y-%m-%d'`. -/
def fmt6Parse (cs : List Char) : Option PDT :=
  match parseDateWord cs with
  | some (y, mo, d) => mkPDT y mo d 0 0 0 none
  | none => none

/-- The `DATE_FORMATS` list (lines 20–27), in order of preference. -/
def DATE_FORMATS : List (List Char → Option PDT) :=
  [fmt1Parse, fmt2Parse, fmt3Parse, fmt4Parse, fmt5Parse, fmt6Parse]

/-- First format whose parse succeeds. -/
def firstFmt : List (List Char → Option PDT) → List Char → Option PDT
  | [], _ => none
  | f :: fs, cs =>
    match f cs with
    | some p => some p
    | none => firstFmt fs cs

/-- `parse_date` from lines 75–101.  A timezone-aware result is converted to
UTC by `astimezone`; when the converted instant falls outside the `datetime`
range this raises `OverflowError`, which `parse_date` does not catch (it only
catches `ValueError`), so the exception escapes to the caller — embedded as
`.error ()`.  Library model note: the final fallback `feedparser._parse_date`
is modelled as recognising no further formats; no claim depends on the extra
formats it accepts. -/
def parse_date (s : String) : Except Unit (Option Int) :=
  if s = "" then .ok none else
  match firstFmt DATE_FORMATS s.data with
  | some p =>
    match p.off with
    | none => .ok (some (naiveMicros p.y p.mo p.d p.h p.mi p.s))
    | some off =>
      let t : Int := (naiveMicros p.y p.mo p.d p.h p.mi p.s : Int) - off
      if 0 ≤ t ∧ t ≤ datetimeMaxMicros then .ok (some t) else .error ()
  | none => .ok none

/-! ## Feed data model -/

/-- The first six fields of a `feedparser` UTC time tuple, as consumed by
`datetime(*published_parsed[:6])`. -/
structure TimeTuple where
  y : Nat
  mo : Nat
  d : Nat
  h : Nat
  mi : Nat
  s : Nat
deriving DecidableEq

/-- The validity condition of the `datetime` constructor. -/
def tupleValid (t : TimeTuple) : Bool :=
  1 ≤ t.y && t.y ≤ 9999 && 1 ≤ t.mo && t.mo ≤ 12 && 1 ≤ t.d &&
    t.d ≤ daysInMonth t.y t.mo && t.h ≤ 23 && t.mi ≤ 59 && t.s ≤ 59

/-- `datetime(*published_parsed[:6])` (line 114): a `ValueError` on an
invalid tuple escapes `filter_entries_since` and is caught only by the
blanket handler of `fetch_single_feed`. -/
def tupleMicros (t : TimeTuple) : Except Unit Int :=
  if tupleValid t then .ok (naiveMicros t.y t.mo t.d t.h t.mi t.s) else .error ()

/-- A parsed feed entry: the native parsed-time field plus the string fields
the source reads with `getattr(entry, ..., '')`. -/
structure Entry where
  published_parsed : Option TimeTuple
  published : String
  pubDate : String
  updated : String
  title : String
  link : String
  summary : String
deriving DecidableEq

/-- The `published or pubDate or updated` fallback chain (lines 117–119 and
170–172): first non-empty string, else the empty string. -/
def entryDateStr (e : Entry) : String :=
  if e.published ≠ "" then e.published
  else if e.pubDate ≠ "" then e.pubDate
  else e.updated

/-- The date an entry is compared against the cutoff with (lines 111–122):
the native parsed-time tuple when present (`if published_parsed:`), else the
normalized string date; `.ok none` means the entry has no usable date. -/
def entryKey (e : Entry) : Except Unit (Option Int) :=
  match e.published_parsed with
  | some t =>
    match tupleMicros t with
    | .ok m => .ok (some m)
    | .error u => .error u
  | none => parse_date (entryDateStr e)

/-! ## Per-feed filtering -/

/-- Python `list[:n]` slicing: nonnegative `n` keeps the first `n` elements,
negative `n` drops the last `|n|`. -/
def pyTake (n : Int) (l : List α) : List α :=
  if 0 ≤ n then l.take n.toNat else l.take (l.length - n.natAbs)

/-- The `filtered` list built by the loop of lines 108–130, in entry order:
pairs of retained entries with their comparison instants. -/
def filter_candidates (σ : Int) : List Entry → Except Unit (List (Entry × Int))
  | [] => .ok []
  | e :: es =>
    match entryKey e with
    | .error u => .error u
    | .ok none => filter_candidates σ es
    | .ok (some d) =>
      match filter_candidates σ es with
      | .error u => .error u
      | .ok rest => .ok (if σ ≤ d then (e, d) :: rest else rest)

/-- Descending-instant comparison for the per-feed sort of line 133
(`sort(key=lambda x: x[1], reverse=True)`; Python sorts are stable, embedded
by a stable insertion sort). -/
def entryGE (p q : Entry × Int) : Prop := q.2 ≤ p.2

instance : DecidableRel entryGE := fun p q => Int.decLe q.2 p.2

instance : IsTotal (Entry × Int) entryGE := ⟨fun p q => Int.le_total q.2 p.2⟩

instance : IsTrans (Entry × Int) entryGE := ⟨fun _ _ _ h h' => le_trans h' h⟩

/-- `filter_entries_since` from lines 106–134: filter by the cutoff, sort by
instant descending, truncate to the per-feed limit, drop the instants.
(`since_dt` always arrives timezone-naive here — either from
`datetime.strptime(..., "%Y-%m-%d")` or from `datetime.now()` — so the
`astimezone` branch of lines 125–127 is the identity.) -/
def filter_entries_since (entries : List Entry) (σ : Int) (pfl : Int) :
    Except Unit (List Entry) :=
  match filter_candidates σ entries with
  | .error u => .error u
  | .ok cands => .ok ((pyTake pfl (List.insertionSort entryGE cands)).map Prod.fst)

/-! ## Per-feed fetching -/

/-- An article record as built by `fetch_single_feed` (lines 174–181);
`published_dt` is the internal sort key. -/
structure Article where
  title : String
  link : String
  summary : String
  published : String
  source : String
  published_dt : Option Int
deriving DecidableEq

/-- An article as returned to the caller, after the sort key is popped
(lines 275–276). -/
structure ArticleOut where
  title : String
  link : String
  summary : String
  published : String
  source : String
deriving DecidableEq

/-- `article.pop('published_dt', None)`. -/
def stripArticle (a : Article) : ArticleOut :=
  ⟨a.title, a.link, a.summary, a.published, a.source⟩

/-- The observable behaviour of one feed URL: the HTTP status and the entries
`feedparser.parse` extracts from the body.  Timeouts and other fetch
exceptions are modelled as a non-200 status, since both produce the empty
article list (lines 156–158 and 185–190). -/
structure FeedResponse where
  status : Nat
  entries : List Entry

/-- One iteration of the article-building loop of lines 169–181. -/
def buildArticle (url : String) (e : Entry) : Except Unit Article :=
  match parse_date (entryDateStr e) with
  | .error u => .error u
  | .ok pd => .ok ⟨e.title, e.link, clean_summary e.summary, entryDateStr e, url, pd⟩

/-- Monadic map over `Except`, mirroring the article loop. -/
def mapME (f : α → Except Unit β) : List α → Except Unit (List β)
  | [] => .ok []
  | x :: xs =>
    match f x with
    | .error u => .error u
    | .ok y =>
      match mapME f xs with
      | .error u => .error u
      | .ok ys => .ok (y :: ys)

/-- `fetch_single_feed` from lines 152–190: non-200 responses give `[]`, and
any exception escaping the body (an invalid native time tuple or a
`parse_date` overflow) is caught by the blanket handler and also gives `[]`. -/
def fetch_single_feed (net : String → FeedResponse) (url : String) (σ : Int)
    (pfl : Int) : List Article :=
  if (net url).status ≠ 200 then []
  else
    match filter_entries_since (net url).entries σ pfl with
    | .error _ => []
    | .ok es =>
      match mapME (buildArticle url) es with
      | .error _ => []
      | .ok arts => arts

/-! ## Markdown rendering -/

/-- The f-string of line 36: one bullet per article, with the summary sliced
to 250 characters and an ellipsis marker appended unconditionally. -/
def bulletLine (a : ArticleOut) : String :=
  "- **[" ++ a.title ++ "](" ++ a.link ++ ")** (" ++ a.published ++ ")\n  " ++
    String.mk (a.summary.data.take 250) ++ "..."

/-- `articles_to_markdown` from lines 31–38. -/
def articles_to_markdown (articles : List ArticleOut) : String :=
  if articles.isEmpty then "No recent articles found."
  else String.intercalate "\n" (articles.map bulletLine)

/-! ## Orchestration -/

/-- The global sort key of lines 269–272:
`x.get('published_dt') or datetime.min`. -/
def artKey (a : Article) : Int := a.published_dt.getD datetimeMinMicros

/-- Descending comparison for the global sort (stable, like `list.sort`). -/
def artGE (a b : Article) : Prop := artKey b ≤ artKey a

instance : DecidableRel artGE := fun a b => Int.decLe (artKey b) (artKey a)

instance : IsTotal Article artGE := ⟨fun a b => Int.le_total (artKey b) (artKey a)⟩

instance : IsTrans Article artGE := ⟨fun _ _ _ h h' => le_trans h' h⟩

/-- The `all_articles.extend(result)` loop of lines 260–265 — every gathered
result is a list here because `fetch_single_feed` converts its own failures
to `[]`, so the `isinstance(result, Exception)` branch is dead. -/
def combineList : List (List α) → List α
  | [] => []
  | l :: ls => l ++ combineList ls

/-- The result dictionary of `fetch_feeds_impl`: either `{"error": ...}` or
`{'markdown': ..., 'articles': ...}`. -/
inductive FetchResult where
  | error (msg : String)
  | ok (markdown : String) (articles : List ArticleOut)
deriving DecidableEq

deriving instance DecidableEq for Except

/-- `datetime.strptime(since_date, "%Y-%m-%d")` of line 240, as an instant. -/
def parse_since (s : String) : Option Int :=
  match fmt6Parse s.data with
  | some p => some (naiveMicros p.y p.mo p.d p.h p.mi p.s)
  | none => none

/-- `timedelta(days=7)` in microseconds. -/
def sevenDays : Int := 604800000000

/-- `feeds_by_cat.get(category, [])` of line 245: the category table
`get_feeds_config` loads from `feeds.yaml` becomes an association-list
lookup (YAML mapping keys are unique). -/
def feedUrlsOf (cfg : List (String × List String)) (category : String) :
    List String :=
  (List.lookup category cfg).getD []

/-- The combined `all_articles` list of lines 249–265: one
`fetch_single_feed` task per feed URL, results collected in feed URL order
(`asyncio.gather` returns results in task order), then concatenated. -/
def allArticlesOf (cfg : List (String × List String))
    (net : String → FeedResponse) (category : String) (σ pfl : Int) :
    List Article :=
  combineList ((feedUrlsOf cfg category).map (fun url => fetch_single_feed net url σ pfl))

/-- The `limited_articles` list of lines 267–279: global stable descending
sort by the normalized instant, sort-key stripping, truncation. -/
def limitedOf (cfg : List (String × List String)) (net : String → FeedResponse)
    (category : String) (limit pfl σ : Int) : List ArticleOut :=
  pyTake limit
    ((List.insertionSort artGE (allArticlesOf cfg net category σ pfl)).map stripArticle)

/-- Lines 244–282 of `fetch_feeds_impl`, after the cutoff instant has been
resolved: category lookup, concurrent fetch, merge, sort, strip, truncate,
render. -/
def fetch_feeds_since (cfg : List (String × List String))
    (net : String → FeedResponse) (category : String) (limit pfl : Int)
    (σ : Int) : FetchResult :=
  if (feedUrlsOf cfg category).isEmpty then
    .error ("No RSS feeds found for category '" ++ category ++ "'.")
  else
    .ok (articles_to_markdown (limitedOf cfg net category limit pfl σ))
      (limitedOf cfg net category limit pfl σ)

/-- `fetch_feeds_impl` from lines 234–282 (and the thin `fetch_feeds` tool
wrapper of lines 228–229, which only forwards its arguments): resolve the
cutoff — 7 days before `now` when `since_date` is omitted, else the parsed
`YYYY-mm-dd` date, any parse failure giving the error result — then run the
pipeline. -/
def fetch_feeds_impl (cfg : List (String × List String))
    (net : String → FeedResponse) (category : String) (limit pfl : Int)
    (since_date : Option String) (now : Int) : FetchResult :=
  match since_date with
  | none => fetch_feeds_since cfg net category limit pfl (now - sevenDays)
  | some s =>
    match parse_since s with
    | some σ => fetch_feeds_since cfg net category limit pfl σ
    | none => .error "Parameter 'since_date' must be in YYYY-mm-dd format."

/-! ## Completion-order model of `asyncio.gather`

`asyncio.gather` stores each task result in the slot of the task's index as
the tasks complete, and returns the slots in task order.  `gatherSched` makes
the completion order explicit: `sched` lists task indices in the order their
results arrive; a slot never written (a task that never completes) is read as
the empty contribution. -/

/-- Slot table after the completions in `sched` have been processed. -/
def gatherFun (tasks : List (List Article)) (sched : List Nat) :
    Nat → Option (List Article) :=
  sched.foldl (fun f i j => if j = i then some (tasks.getD i []) else f j)
    (fun _ => none)

/-- The gathered results, in task order. -/
def gatherSched (tasks : List (List Article)) (sched : List Nat) :
    List (List Article) :=
  (List.range tasks.length).map (fun i => (gatherFun tasks sched i).getD [])

/-- `fetch_feeds_since` with the completion order of the per-feed tasks made
explicit. -/
def fetch_feeds_since_sched (cfg : List (String × List String))
    (net : String → FeedResponse) (category : String) (limit pfl : Int)
    (σ : Int) (sched : List Nat) : FetchResult :=
  if (feedUrlsOf cfg category).isEmpty then
    .error ("No RSS feeds found for category '" ++ category ++ "'.")
  else
    let all_articles := combineList
      (gatherSched ((feedUrlsOf cfg category).map (fun url => fetch_single_feed net url σ pfl)) sched)
    let limited := pyTake limit ((List.insertionSort artGE all_articles).map stripArticle)
    .ok (articles_to_markdown limited) limited

/-- `fetch_feeds_impl` with the completion order made explicit. -/
def fetch_feeds_sched (cfg : List (String × List String))
    (net : String → FeedResponse) (category : String) (limit pfl : Int)
    (since_date : Option String) (now : Int) (sched : List Nat) : FetchResult :=
  match since_date with
  | none => fetch_feeds_since_sched cfg net category limit pfl (now - sevenDays) sched
  | some s =>
    match parse_since s with
    | some σ => fetch_feeds_since_sched cfg net category limit pfl σ sched
    | none => .error "Parameter 'since_date' must be in YYYY-mm-dd format."

/-- A completion order in which every one of the `n` tasks completes. -/
def schedComplete (n : Nat) (sched : List Nat) : Prop := ∀ i < n, i ∈ sched

/-- The instant a returned article renormalizes to: the result of feeding its
verbatim `published` string back through `parse_date`, with strings that do
not renormalize mapped to the embedded `datetime.min` (the oldest possible
sort position). -/
def renormKey (a : ArticleOut) : Int :=
  match parse_date a.published with
  | .ok (some t) => t
  | _ => datetimeMinMicros

/-! ## Whitespace normalization lemmas -/

theorem splitWsAux_shift (w : List Char) (hw : ∀ c ∈ w, isSpaceCh c = false) :
    ∀ rest cur, splitWsAux (w ++ rest) cur = splitWsAux rest (cur ++ w) := by
  induction w with
  | nil => intro rest cur; simp
  | cons c w ih =>
    intro rest cur
    have hc : isSpaceCh c = false := hw c (by simp)
    have hw' : ∀ x ∈ w, isSpaceCh x = false := fun x hx => hw x (by simp [hx])
    simp only [List.cons_append, splitWsAux, hc]
    rw [if_neg (by simp)]
    rw [show w.append rest = w ++ rest from rfl, ih hw' rest (cur ++ [c])]
    simp

theorem splitWsAux_chunks_good :
    ∀ (cs cur : List Char), (∀ c ∈ cur, isSpaceCh c = false) →
      ∀ x ∈ splitWsAux cs cur, x ≠ [] ∧ ∀ c ∈ x, isSpaceCh c = false := by
  intro cs
  induction cs with
  | nil =>
    intro cur hcur x hx
    by_cases h : cur.isEmpty
    · simp [splitWsAux, h] at hx
    · simp [splitWsAux, h] at hx
      subst hx
      exact ⟨by simpa [List.isEmpty_iff] using h, hcur⟩
  | cons c cs ih =>
    intro cur hcur x hx
    by_cases hc : isSpaceCh c = true
    · by_cases hcure : cur.isEmpty
      · simp [splitWsAux, hc, hcure] at hx
        exact ih [] (by simp) x hx
      · simp [splitWsAux, hc, hcure] at hx
        rcases hx with hx | hx
        · subst hx
          exact ⟨by simpa [List.isEmpty_iff] using hcure, hcur⟩
        · exact ih [] (by simp) x hx
    · have hc' : isSpaceCh c = false := by simpa using hc
      simp [splitWsAux, hc'] at hx
      refine ih (cur ++ [c]) ?_ x hx
      intro d hd
      rcases List.mem_append.mp hd with h | h
      · exact hcur d h
      · simp at h; subst h; exact hc'

theorem splitWs_joinWords (ws : List (List Char))
    (h : ∀ w ∈ ws, w ≠ [] ∧ ∀ c ∈ w, isSpaceCh c = false) :
    splitWs (joinWords ws) = ws := by
  induction ws with
  | nil => rfl
  | cons w ws ih =>
    have hw := h w (by simp)
    have hws : ∀ x ∈ ws, x ≠ [] ∧ ∀ c ∈ x, isSpaceCh c = false :=
      fun x hx => h x (by simp [hx])
    cases ws with
    | nil =>
      show splitWsAux (joinWords [w]) [] = [w]
      have : joinWords [w] = w ++ [] := by simp [joinWords]
      rw [this, splitWsAux_shift w hw.2 [] []]
      simp [splitWsAux, List.isEmpty_iff, hw.1]
    | cons w' ws' =>
      show splitWsAux (joinWords (w :: w' :: ws')) [] = w :: w' :: ws'
      have hj : joinWords (w :: w' :: ws') = w ++ ' ' :: joinWords (w' :: ws') := by
        rfl
      rw [hj, splitWsAux_shift w hw.2 _ []]
      simp only [List.nil_append]
      have hsp : isSpaceCh ' ' = true := by decide
      simp only [splitWsAux, hsp, if_true]
      rw [if_neg (by simpa [List.isEmpty_iff] using hw.1)]
      exact congrArg (w :: ·) (ih hws)

theorem normalizeWs_idem (cs : List Char) :
    normalizeWs (normalizeWs cs) = normalizeWs cs := by
  unfold normalizeWs
  rw [show splitWs (joinWords (splitWs cs)) = splitWs cs from
    splitWs_joinWords _ (splitWsAux_chunks_good cs [] (by simp))]

/-! ## Supporting lemmas -/

theorem pyTake_sublist (n : Int) (l : List α) : (pyTake n l).Sublist l := by
  unfold pyTake
  split <;> exact List.take_sublist _ _

theorem length_pyTake_le (n : Int) (l : List α) (h : 0 ≤ n) :
    ((pyTake n l).length : Int) ≤ n := by
  unfold pyTake
  rw [if_pos h]
  have h1 : (List.take n.toNat l).length ≤ n.toNat := by
    simp [List.length_take]
  calc ((List.take n.toNat l).length : Int) ≤ (n.toNat : Int) := Int.ofNat_le.mpr h1
    _ = n := Int.toNat_of_nonneg h

theorem mem_combineList {a : α} {L : List (List α)} (h : a ∈ combineList L) :
    ∃ l ∈ L, a ∈ l := by
  induction L with
  | nil => simp [combineList] at h
  | cons l ls ih =>
    rcases List.mem_append.mp h with h' | h'
    · exact ⟨l, by simp, h'⟩
    · obtain ⟨w, hw, haw⟩ := ih h'
      exact ⟨w, by simp [hw], haw⟩

theorem mapME_ok_length (f : α → Except Unit β) (xs : List α) (ys : List β)
    (h : mapME f xs = .ok ys) : ys.length = xs.length := by
  induction xs generalizing ys with
  | nil =>
    simp only [mapME] at h
    injection h with h
    subst h; rfl
  | cons x xs ih =>
    simp only [mapME] at h
    cases hx : f x with
    | error u => rw [hx] at h; exact absurd h (by simp)
    | ok y =>
      rw [hx] at h
      cases hm : mapME f xs with
      | error u => rw [hm] at h; exact absurd h (by simp)
      | ok ys' =>
        rw [hm] at h
        injection h with h
        subst h
        simp [ih ys' hm]

theorem mapME_ok_mem (f : α → Except Unit β) (xs : List α) (ys : List β)
    (h : mapME f xs = .ok ys) (b : β) (hb : b ∈ ys) :
    ∃ x ∈ xs, f x = .ok b := by
  induction xs generalizing ys with
  | nil =>
    simp only [mapME] at h
    injection h with h
    subst h; simp at hb
  | cons x xs ih =>
    simp only [mapME] at h
    cases hx : f x with
    | error u => rw [hx] at h; exact absurd h (by simp)
    | ok y =>
      rw [hx] at h
      cases hm : mapME f xs with
      | error u => rw [hm] at h; exact absurd h (by simp)
      | ok ys' =>
        rw [hm] at h
        injection h with h
        subst h
        rcases List.mem_cons.mp hb with hb' | hb'
        · subst hb'; exact ⟨x, by simp, hx⟩
        · obtain ⟨x', hx', hfx'⟩ := ih ys' hm hb'
          exact ⟨x', by simp [hx'], hfx'⟩

theorem filter_candidates_mem (σ : Int) (es : List Entry)
    (c : List (Entry × Int)) (h : filter_candidates σ es = .ok c)
    (p : Entry × Int) :
    p ∈ c ↔ p.1 ∈ es ∧ entryKey p.1 = .ok (some p.2) ∧ σ ≤ p.2 := by
  induction es generalizing c with
  | nil =>
    simp only [filter_candidates] at h
    injection h with h
    subst h; simp
  | cons e es ih =>
    simp only [filter_candidates] at h
    cases hk : entryKey e with
    | error u => rw [hk] at h; exact absurd h (by simp)
    | ok o =>
      rw [hk] at h
      cases o with
      | none =>
        rw [ih c h]
        constructor
        · rintro ⟨h1, h2, h3⟩; exact ⟨List.mem_cons_of_mem _ h1, h2, h3⟩
        · rintro ⟨h1, h2, h3⟩
          rcases List.mem_cons.mp h1 with h1' | h1'
          · rw [h1'] at h2; rw [h2] at hk; exact absurd hk (by simp)
          · exact ⟨h1', h2, h3⟩
      | some d =>
        cases hr : filter_candidates σ es with
        | error u => rw [hr] at h; exact absurd h (by simp)
        | ok rest =>
          rw [hr] at h
          injection h with h
          subst h
          by_cases hσ : σ ≤ d
          · rw [if_pos hσ]
            constructor
            · intro hp
              rcases List.mem_cons.mp hp with hp' | hp'
              · subst hp'
                exact ⟨by simp, by simpa using hk, hσ⟩
              · obtain ⟨h1, h2, h3⟩ := (ih rest hr).mp hp'
                exact ⟨List.mem_cons_of_mem _ h1, h2, h3⟩
            · rintro ⟨h1, h2, h3⟩
              rcases List.mem_cons.mp h1 with h1' | h1'
              · have hpd : p.2 = d := by
                  rw [h1'] at h2; rw [h2] at hk
                  injection hk with hk'
                  exact Option.some_inj.mp hk'
                have : p = (e, d) := Prod.ext h1' hpd
                simp [this]
              · exact List.mem_cons_of_mem _ ((ih rest hr).mpr ⟨h1', h2, h3⟩)
          · rw [if_neg hσ]
            rw [ih rest hr]
            constructor
            · rintro ⟨h1, h2, h3⟩; exact ⟨List.mem_cons_of_mem _ h1, h2, h3⟩
            · rintro ⟨h1, h2, h3⟩
              rcases List.mem_cons.mp h1 with h1' | h1'
              · rw [h1'] at h2; rw [h2] at hk
                injection hk with hk'
                rw [Option.some_inj.mp hk'] at h3
                exact absurd h3 hσ
              · exact ⟨h1', h2, h3⟩

theorem filter_out_eq (entries : List Entry) (σ pfl : Int) (out : List Entry)
    (hf : filter_entries_since entries σ pfl = .ok out) :
    ∃ cands, filter_candidates σ entries = .ok cands ∧
      out = (pyTake pfl (List.insertionSort entryGE cands)).map Prod.fst := by
  unfold filter_entries_since at hf
  cases hc : filter_candidates σ entries with
  | error u => rw [hc] at hf; exact absurd hf (by simp)
  | ok cands =>
    rw [hc] at hf
    injection hf with hf
    exact ⟨cands, rfl, hf.symm⟩

theorem mem_filter_out (entries : List Entry) (σ pfl : Int) (out : List Entry)
    (hf : filter_entries_since entries σ pfl = .ok out) (e : Entry)
    (he : e ∈ out) :
    ∃ d, e ∈ entries ∧ entryKey e = .ok (some d) ∧ σ ≤ d := by
  obtain ⟨cands, hc, hout⟩ := filter_out_eq entries σ pfl out hf
  rw [hout] at he
  obtain ⟨p, hp, hpe⟩ := List.mem_map.mp he
  have hp1 : p ∈ List.insertionSort entryGE cands :=
    (pyTake_sublist pfl _).mem hp
  have hp2 : p ∈ cands := (List.perm_insertionSort entryGE cands).mem_iff.mp hp1
  obtain ⟨h1, h2, h3⟩ := (filter_candidates_mem σ entries cands hc p).mp hp2
  rw [hpe] at h1 h2
  exact ⟨p.2, h1, h2, h3⟩

theorem buildArticle_ok (url : String) (e : Entry) (a : Article)
    (h : buildArticle url e = .ok a) :
    a.published = entryDateStr e ∧ a.source = url ∧
      parse_date (entryDateStr e) = .ok a.published_dt := by
  unfold buildArticle at h
  cases hp : parse_date (entryDateStr e) with
  | error u => rw [hp] at h; exact absurd h (by simp)
  | ok pd =>
    rw [hp] at h
    injection h with h
    subst h
    exact ⟨rfl, rfl, rfl⟩

theorem mem_fetch_single (net : String → FeedResponse) (url : String)
    (σ pfl : Int) (a : Article) (ha : a ∈ fetch_single_feed net url σ pfl) :
    ∃ e d, e ∈ (net url).entries ∧ entryKey e = .ok (some d) ∧ σ ≤ d ∧
      buildArticle url e = .ok a := by
  unfold fetch_single_feed at ha
  by_cases hst : (net url).status ≠ 200
  · rw [if_pos hst] at ha; simp at ha
  · rw [if_neg hst] at ha
    split at ha
    · simp at ha
    · rename_i es hf
      split at ha
      · simp at ha
      · rename_i arts hm
        obtain ⟨e, he, hb⟩ := mapME_ok_mem _ _ _ hm a ha
        obtain ⟨d, he', hk, hσd⟩ := mem_filter_out _ _ _ _ hf e he
        exact ⟨e, d, he', hk, hσd, hb⟩

theorem fetch_single_inv (net : String → FeedResponse) (url : String)
    (σ pfl : Int) (a : Article) (ha : a ∈ fetch_single_feed net url σ pfl) :
    parse_date a.published = .ok a.published_dt := by
  obtain ⟨e, d, _, _, _, hb⟩ := mem_fetch_single net url σ pfl a ha
  obtain ⟨h1, _, h3⟩ := buildArticle_ok url e a hb
  rw [h1]; exact h3

theorem parse_date_nonneg (s : String) (t : Int)
    (h : parse_date s = .ok (some t)) : datetimeMinMicros ≤ t := by
  unfold parse_date at h
  split at h
  · injection h with h; exact absurd h (by simp)
  · split at h
    · split at h
      · injection h with h
        injection h with h
        rw [← h]
        exact Int.ofNat_nonneg _
      · dsimp only at h
        split at h
        · rename_i hb
          injection h with h
          injection h with h
          rw [← h]
          exact hb.1
        · exact absurd h (by simp)
    · injection h with h; exact absurd h (by simp)

theorem impl_ok_since (cfg : List (String × List String))
    (net : String → FeedResponse) (cat : String) (limit pfl : Int)
    (sd : Option String) (now : Int) (md : String) (arts : List ArticleOut)
    (h : fetch_feeds_impl cfg net cat limit pfl sd now = .ok md arts) :
    ∃ σ, fetch_feeds_since cfg net cat limit pfl σ = .ok md arts := by
  unfold fetch_feeds_impl at h
  split at h
  · exact ⟨now - sevenDays, h⟩
  · split at h
    · rename_i σ hp
      exact ⟨σ, h⟩
    · exact absurd h (by simp)

theorem fetch_since_ok (cfg : List (String × List String))
    (net : String → FeedResponse) (cat : String) (limit pfl σ : Int)
    (md : String) (arts : List ArticleOut)
    (h : fetch_feeds_since cfg net cat limit pfl σ = .ok md arts) :
    arts = limitedOf cfg net cat limit pfl σ := by
  unfold fetch_feeds_since at h
  by_cases he : (feedUrlsOf cfg cat).isEmpty
  · rw [if_pos he] at h; exact absurd h (by simp)
  · rw [if_neg he] at h
    injection h with h1 h2
    exact h2.symm

theorem gatherFun_eq (tasks : List (List Article)) (i : Nat) :
    ∀ (sched : List Nat) (f : Nat → Option (List Article)),
      (sched.foldl (fun f i j => if j = i then some (tasks.getD i []) else f j) f) i =
        if i ∈ sched then some (tasks.getD i []) else f i := by
  intro sched
  induction sched with
  | nil => intro f; simp
  | cons j rest ih =>
    intro f
    rw [List.foldl_cons, ih]
    by_cases hmem : i ∈ rest
    · rw [if_pos hmem, if_pos (by simp [hmem])]
    · rw [if_neg hmem]
      by_cases hij : i = j
      · subst hij
        simp
      · rw [if_neg (by simp [hij, hmem])]
        simp [hij, hmem]

theorem gatherSched_complete (tasks : List (List Article)) (sched : List Nat)
    (h : schedComplete tasks.length sched) : gatherSched tasks sched = tasks := by
  unfold gatherSched
  apply List.ext_getElem
  · simp
  · intro n h1 h2
    have hn : n < tasks.length := by simpa using h2
    have hmem : n ∈ sched := h n hn
    rw [List.getElem_map]
    rw [List.getElem_range]
    unfold gatherFun
    rw [gatherFun_eq tasks n sched _]
    rw [if_pos hmem, Option.getD_some]
    exact List.getD_eq_getElem tasks [] hn

theorem fetch_sched_eq (cfg : List (String × List String))
    (net : String → FeedResponse) (cat : String) (limit pfl σ : Int)
    (sched : List Nat) (h : schedComplete (feedUrlsOf cfg cat).length sched) :
    fetch_feeds_since_sched cfg net cat limit pfl σ sched =
      fetch_feeds_since cfg net cat limit pfl σ := by
  unfold fetch_feeds_since_sched fetch_feeds_since
  by_cases he : (feedUrlsOf cfg cat).isEmpty
  · rw [if_pos he, if_pos he]
  · rw [if_neg he, if_neg he]
    have hlen : ((feedUrlsOf cfg cat).map
        (fun url => fetch_single_feed net url σ pfl)).length =
        (feedUrlsOf cfg cat).length := List.length_map _ _
    have hg := gatherSched_complete
      ((feedUrlsOf cfg cat).map (fun url => fetch_single_feed net url σ pfl))
      sched (by rw [hlen]; exact h)
    rw [hg]
    rfl

/-! ## Sanitizer lemmas -/

theorem clean_summary_fixed (s : String) (h1 : unescape s.data = s.data)
    (h2 : s.data.contains '<' = false) : clean_summary s = s := by
  unfold clean_summary
  by_cases hs : s = ""
  · rw [if_pos hs]; exact hs.symm
  · rw [if_neg hs]
    dsimp only
    rw [h1, if_pos h2]

/-! ## Claim theorems -/

/-- Claim C5 (counterexample): `clean_summary` applied to the plain-text
input `"a  b"` returns it unchanged, with the internal double space intact —
the fast path of lines 50–52 returns before the whitespace collapsing of
line 64 — so the output is not whitespace-collapsed, refuting the claim that
every output has internal whitespace runs collapsed to single spaces. -/
theorem C5_cex :
    clean_summary "a  b" = "a  b" ∧
      normalizeWs ((clean_summary "a  b").data) ≠ (clean_summary "a  b").data := by
  constructor
  · decide
  · decide

/-- Claim C5 (amended): for every input whose entity-unescaped form contains
a `<` character (every input routed through the markup path), the output of
`clean_summary` has all internal whitespace runs collapsed to single spaces
and is trimmed of leading and trailing whitespace (it is a fixed point of
the whitespace normalizer); inputs on the markup-free fast path are returned
with entities unescaped but whitespace untouched. -/
theorem C5_amended (s : String) (h : (unescape s.data).contains '<' = true) :
    normalizeWs ((clean_summary s).data) = (clean_summary s).data := by
  have hs : s ≠ "" := by
    intro he
    subst he
    exact absurd h (by decide)
  unfold clean_summary
  rw [if_neg hs]
  dsimp only
  rw [if_neg (by rw [h]; simp)]
  exact normalizeWs_idem _

/-- Witness for C5_amended at the concrete markup input `"<p>a  b</p>"`. -/
theorem C5_amended_witness :
    (unescape "<p>a  b</p>".data).contains '<' = true ∧
      normalizeWs ((clean_summary "<p>a  b</p>").data) =
        (clean_summary "<p>a  b</p>").data :=
  ⟨by decide, C5_amended "<p>a  b</p>" (by decide)⟩

/-- Claim C6 (counterexample): the input `"&amp;amp;"` contains no markup
(no `<` character), yet `clean_summary` is not idempotent on it: the first
application unescapes it to `"&amp;"` and the second to `"&"`, because
`html.unescape` runs again on the already-unescaped text. -/
theorem C6_cex :
    "&amp;amp;".data.contains '<' = false ∧
      clean_summary "&amp;amp;" = "&amp;" ∧
      clean_summary (clean_summary "&amp;amp;") ≠ clean_summary "&amp;amp;" := by
  refine ⟨by decide, by decide, by decide⟩

/-- Claim C6 (amended): `clean_summary` is idempotent on plain-text inputs
that contain no `<` character and no HTML character references (inputs fixed
by entity unescaping) — on such inputs it is the identity. -/
theorem C6_amended (s : String) (h1 : unescape s.data = s.data)
    (h2 : s.data.contains '<' = false) :
    clean_summary (clean_summary s) = clean_summary s := by
  rw [clean_summary_fixed s h1 h2]
  exact clean_summary_fixed s h1 h2

/-- Witness for C6_amended at the concrete plain-text input `"hi  there"`. -/
theorem C6_amended_witness :
    unescape "hi  there".data = "hi  there".data ∧
      "hi  there".data.contains '<' = false ∧
      clean_summary (clean_summary "hi  there") = clean_summary "hi  there" :=
  ⟨by decide, by decide, C6_amended "hi  there" (by decide) (by decide)⟩

/-- Claim C7: `articles_to_markdown` returns the literal sentinel
`"No recent articles found."` on the empty list, and otherwise renders
exactly one bullet per article — newline-joined — each holding the bolded
hyperlinked title, the parenthesized verbatim published string, and the
summary truncated to 250 characters with the `"..."` marker appended for
every article regardless of the summary length. -/
theorem C7_renderer (l : List ArticleOut) :
    articles_to_markdown l =
      if l.isEmpty then "No recent articles found."
      else String.intercalate "\n" (l.map (fun a =>
        "- **[" ++ a.title ++ "](" ++ a.link ++ ")** (" ++ a.published ++
          ")\n  " ++ String.mk (a.summary.data.take 250) ++ "...")) := rfl

/-- Claim C2: in the articles list returned by a successful `fetch_feeds`
invocation, for every pair of articles the renormalized instant of the
earlier-listed one bounds that of the later-listed one from above (strings
that do not renormalize take the oldest possible position, the embedded
`datetime.min`), and every instant a published string renormalizes to is
bounded below by that oldest value. -/
theorem C2_sorted (cfg : List (String × List String))
    (net : String → FeedResponse) (cat : String) (limit pfl : Int)
    (sd : Option String) (now : Int) (md : String) (arts : List ArticleOut)
    (hr : fetch_feeds_impl cfg net cat limit pfl sd now = .ok md arts) :
    List.Pairwise (fun x y => renormKey y ≤ renormKey x) arts ∧
      ∀ a ∈ arts, ∀ t, parse_date a.published = .ok (some t) →
        datetimeMinMicros ≤ t := by
  obtain ⟨σ, hs⟩ := impl_ok_since cfg net cat limit pfl sd now md arts hr
  have harts := fetch_since_ok cfg net cat limit pfl σ md arts hs
  constructor
  · have hsorted : List.Pairwise artGE
        (List.insertionSort artGE (allArticlesOf cfg net cat σ pfl)) :=
      List.sorted_insertionSort artGE _
    have hinv : ∀ x ∈ List.insertionSort artGE (allArticlesOf cfg net cat σ pfl),
        parse_date x.published = .ok x.published_dt := by
      intro x hx
      have hx' : x ∈ allArticlesOf cfg net cat σ pfl :=
        (List.perm_insertionSort artGE _).mem_iff.mp hx
      obtain ⟨r, hrmem, har⟩ := mem_combineList hx'
      obtain ⟨url, _, hurl⟩ := List.mem_map.mp hrmem
      rw [← hurl] at har
      exact fetch_single_inv net url σ pfl x har
    have hkey : ∀ x ∈ List.insertionSort artGE (allArticlesOf cfg net cat σ pfl),
        renormKey (stripArticle x) = artKey x := by
      intro x hx
      have hp := hinv x hx
      unfold renormKey artKey
      have hpub : (stripArticle x).published = x.published := rfl
      rw [hpub, hp]
      cases x.published_dt with
      | none => rfl
      | some t => rfl
    have h2 : List.Pairwise
        (fun x y => renormKey (stripArticle y) ≤ renormKey (stripArticle x))
        (List.insertionSort artGE (allArticlesOf cfg net cat σ pfl)) :=
      List.Pairwise.imp_of_mem
        (fun ha hb hR => by rw [hkey _ ha, hkey _ hb]; exact hR) hsorted
    have h3 : List.Pairwise (fun x y => renormKey y ≤ renormKey x)
        ((List.insertionSort artGE (allArticlesOf cfg net cat σ pfl)).map
          stripArticle) := List.pairwise_map.mpr h2
    have h4 := List.Pairwise.sublist (pyTake_sublist limit _) h3
    rw [harts]
    unfold limitedOf
    exact h4
  · intro a _ t hpt
    exact parse_date_nonneg a.published t hpt

/-- Claim C1 (counterexample): an entry carrying a recent native parsed-time
tuple but an old parseable `published` string passes the cutoff filter via
the tuple, so the returned article's published string renormalizes to an
instant strictly below the `since_date` instant — refuting the claim that
every returned article's published string renormalizes to nothing or to an
instant at or above the cutoff. -/
theorem C1_cex :
    fetch_feeds_impl [("c", ["u"])]
        (fun _ => (⟨200, [⟨some ⟨2024, 6, 2, 0, 0, 0⟩, "2020-01-01", "", "",
          "t", "l", "s"⟩]⟩ : FeedResponse))
        "c" 20 5 (some "2024-06-01") 0 =
      .ok "- **[t](l)** (2020-01-01)\n  s..."
        [⟨"t", "l", "s", "2020-01-01", "u"⟩] ∧
      parse_since "2024-06-01" = some 63852796800000000 ∧
      parse_date "2020-01-01" = .ok (some 63713433600000000) ∧
      (63713433600000000 : Int) < 63852796800000000 :=
  ⟨by decide, by decide, by decide, by decide⟩

/-- Claim C1 (amended): for every valid `since_date`, every article returned
by `fetch_feeds` originates from an entry of one of the category's feeds,
carries that entry's date string verbatim, and either that entry had no
native parsed-time tuple — in which case the published string renormalizes
to an instant `>=` the `since_date` instant — or the entry carried a native
parsed-time tuple whose instant is `>=` the `since_date` instant, in which
case the published string is unconstrained. -/
theorem C1_amended (cfg : List (String × List String))
    (net : String → FeedResponse) (cat s : String) (limit pfl : Int)
    (now σ : Int) (md : String) (arts : List ArticleOut)
    (hs : parse_since s = some σ)
    (hr : fetch_feeds_impl cfg net cat limit pfl (some s) now = .ok md arts) :
    ∀ a ∈ arts, ∃ url e, url ∈ feedUrlsOf cfg cat ∧ e ∈ (net url).entries ∧
      a.published = entryDateStr e ∧
      ((e.published_parsed = none ∧
          ∃ t, parse_date a.published = .ok (some t) ∧ σ ≤ t) ∨
        (∃ tt m, e.published_parsed = some tt ∧ tupleMicros tt = .ok m ∧ σ ≤ m)) := by
  simp only [fetch_feeds_impl, hs] at hr
  have harts := fetch_since_ok cfg net cat limit pfl σ md arts hr
  intro a ha
  rw [harts] at ha
  unfold limitedOf at ha
  have ha1 : a ∈ (List.insertionSort artGE (allArticlesOf cfg net cat σ pfl)).map
      stripArticle := (pyTake_sublist limit _).mem ha
  obtain ⟨b, hb, hba⟩ := List.mem_map.mp ha1
  have hb1 : b ∈ allArticlesOf cfg net cat σ pfl :=
    (List.perm_insertionSort artGE _).mem_iff.mp hb
  obtain ⟨r, hrmem, hbr⟩ := mem_combineList hb1
  obtain ⟨url, hurl, hru⟩ := List.mem_map.mp hrmem
  rw [← hru] at hbr
  obtain ⟨e, d, he, hk, hσd, hbuild⟩ := mem_fetch_single net url σ pfl b hbr
  obtain ⟨hpub, hsrc, hpd⟩ := buildArticle_ok url e b hbuild
  have hapub : a.published = entryDateStr e := by
    rw [← hba]
    exact hpub
  refine ⟨url, e, hurl, he, hapub, ?_⟩
  cases htt : e.published_parsed with
  | none =>
    left
    have hke : entryKey e = parse_date (entryDateStr e) := by
      simp only [entryKey, htt]
    rw [hke] at hk
    refine ⟨rfl, d, ?_, hσd⟩
    rw [hapub]
    exact hk
  | some tt =>
    right
    have hkt : tupleMicros tt = .ok d := by
      simp only [entryKey, htt] at hk
      cases htm : tupleMicros tt with
      | error u => rw [htm] at hk; exact absurd hk (by simp)
      | ok m =>
        rw [htm] at hk
        simp only at hk
        injection hk with hk
        rw [Option.some_inj.mp hk]
    exact ⟨tt, d, rfl, hkt, hσd⟩

/-- Claim C3 (counterexample): with the negative limit `-1` — which the tool
accepts — the Python slice `all_articles[:limit]` drops only the last
element, so a successful invocation returns one article while `1 ≤ -1` is
false, refuting the unconditional bound `len(articles) <= limit`. -/
theorem C3_cex :
    fetch_feeds_impl [("c", ["u"])]
        (fun _ => (⟨200, [⟨none, "2024-06-05", "", "", "t2", "l2", "s2"⟩,
          ⟨none, "2024-06-06", "", "", "t3", "l3", "s3"⟩]⟩ : FeedResponse))
        "c" (-1) 5 (some "2024-06-01") 0 =
      .ok "- **[t3](l3)** (2024-06-06)\n  s3..."
        [⟨"t3", "l3", "s3", "2024-06-06", "u"⟩] ∧
      ¬ ((([(⟨"t3", "l3", "s3", "2024-06-06", "u"⟩ : ArticleOut)]).length : Int) ≤ -1) :=
  ⟨by decide, by decide⟩

/-- Claim C3 (amended): for nonnegative `limit` and `per_feed_limit`, every
successful `fetch_feeds` invocation returns at most `limit` articles, and
every single feed contributes at most `per_feed_limit` articles before the
global merge. -/
theorem C3_amended (cfg : List (String × List String))
    (net : String → FeedResponse) (cat : String) (limit pfl : Int)
    (sd : Option String) (now : Int) (md : String) (arts : List ArticleOut)
    (h1 : 0 ≤ limit) (h2 : 0 ≤ pfl)
    (hr : fetch_feeds_impl cfg net cat limit pfl sd now = .ok md arts) :
    ((arts.length : Int) ≤ limit) ∧
      ∀ url σ, ((fetch_single_feed net url σ pfl).length : Int) ≤ pfl := by
  constructor
  · obtain ⟨σ, hs⟩ := impl_ok_since cfg net cat limit pfl sd now md arts hr
    have harts := fetch_since_ok cfg net cat limit pfl σ md arts hs
    rw [harts]
    unfold limitedOf
    exact length_pyTake_le limit _ h1
  · intro url σ
    unfold fetch_single_feed
    by_cases hst : (net url).status ≠ 200
    · rw [if_pos hst]; simpa using h2
    · rw [if_neg hst]
      split
      · simpa using h2
      · rename_i es hf
        split
        · simpa using h2
        · rename_i arts' hm
          have hlen := mapME_ok_length _ _ _ hm
          obtain ⟨cands, hc, hout⟩ := filter_out_eq _ _ _ _ hf
          rw [hlen, hout, List.length_map]
          exact length_pyTake_le pfl _ h2

/-- Claim C4: during per-feed filtering, an entry with no native parsed-time
tuple whose date string does not renormalize is excluded from the filter
output, while an entry carrying a native parsed-time tuple is retained in
the candidate list exactly when the tuple instant passes the cutoff — its
string date fields play no role in the comparison. -/
theorem C4_filter (entries : List Entry) (σ pfl : Int) (out : List Entry)
    (cands : List (Entry × Int))
    (hf : filter_entries_since entries σ pfl = .ok out)
    (hc : filter_candidates σ entries = .ok cands) :
    (∀ e ∈ entries, e.published_parsed = none →
      parse_date (entryDateStr e) = .ok none → e ∉ out) ∧
    (∀ e ∈ entries, ∀ tt m, e.published_parsed = some tt →
      tupleMicros tt = .ok m → ((e, m) ∈ cands ↔ σ ≤ m)) := by
  constructor
  · intro e he hnone hp hmem
    obtain ⟨d, _, hk, _⟩ := mem_filter_out entries σ pfl out hf e hmem
    have hke : entryKey e = .ok none := by
      simp only [entryKey, hnone]
      exact hp
    rw [hke] at hk
    injection hk with hk
    exact absurd hk (by simp)
  · intro e he tt m htt htm
    have hkey : entryKey e = .ok (some m) := by
      simp only [entryKey, htt, htm]
    rw [filter_candidates_mem σ entries cands hc (e, m)]
    constructor
    · exact fun h => h.2.2
    · exact fun h => ⟨he, hkey, h⟩

/-- Claim C10: with a fixed configuration, a fixed URL-to-response mapping
and an explicit `since_date`, the result of `fetch_feeds` does not depend on
the completion order of the concurrent per-feed fetches: any two complete
completion orders produce identical results, because `asyncio.gather`
collects results by task index. -/
theorem C10_deterministic (cfg : List (String × List String))
    (net : String → FeedResponse) (cat : String) (limit pfl : Int)
    (s : String) (now : Int) (sched1 sched2 : List Nat)
    (h1 : schedComplete (feedUrlsOf cfg cat).length sched1)
    (h2 : schedComplete (feedUrlsOf cfg cat).length sched2) :
    fetch_feeds_sched cfg net cat limit pfl (some s) now sched1 =
      fetch_feeds_sched cfg net cat limit pfl (some s) now sched2 := by
  unfold fetch_feeds_sched
  cases hp : parse_since s with
  | none => simp only [hp]
  | some σ =>
    simp only [hp]
    rw [fetch_sched_eq cfg net cat limit pfl σ sched1 h1,
      fetch_sched_eq cfg net cat limit pfl σ sched2 h2]

/-- Claim C8: when the cutoff parameter is resolvable (omitted or a valid
`YYYY-mm-dd` string), an unknown category — or one whose configured feed URL
list is empty — makes `fetch_feeds` return exactly
`{"error": "No RSS feeds found for category '<category>'."}`, with no
exception. -/
theorem C8_unknown_category (cfg : List (String × List String))
    (net : String → FeedResponse) (cat : String) (limit pfl : Int)
    (sd : Option String) (now : Int)
    (hsd : sd = none ∨ ∃ s σ, sd = some s ∧ parse_since s = some σ)
    (hcat : feedUrlsOf cfg cat = []) :
    fetch_feeds_impl cfg net cat limit pfl sd now =
      .error ("No RSS feeds found for category '" ++ cat ++ "'.") := by
  have hsince : ∀ σ, fetch_feeds_since cfg net cat limit pfl σ =
      .error ("No RSS feeds found for category '" ++ cat ++ "'.") := by
    intro σ
    unfold fetch_feeds_since
    rw [if_pos (by rw [hcat]; rfl)]
  rcases hsd with h | ⟨s, σ, hss, hps⟩
  · subst h
    exact hsince _
  · subst hss
    simp only [fetch_feeds_impl, hps]
    exact hsince σ

/-- Witness for C8_unknown_category: the unknown category `"DoesNotExist"`
with an empty configuration and an omitted `since_date`. -/
theorem C8_witness :
    feedUrlsOf [] "DoesNotExist" = [] ∧
      fetch_feeds_impl [] (fun _ => (⟨200, []⟩ : FeedResponse))
        "DoesNotExist" 20 5 none 0 =
      .error "No RSS feeds found for category 'DoesNotExist'." :=
  ⟨by decide, C8_unknown_category [] (fun _ => (⟨200, []⟩ : FeedResponse))
    "DoesNotExist" 20 5 none 0 (Or.inl rfl) (by decide)⟩

/-- Claim C9: a `since_date` string that does not parse as `YYYY-mm-dd`
makes `fetch_feeds` return the error object citing the required format
instead of raising, and an omitted `since_date` runs the pipeline with the
cutoff set to seven days before the current time. -/
theorem C9_since_handling (cfg : List (String × List String))
    (net : String → FeedResponse) (cat : String) (limit pfl : Int)
    (now : Int) (s : String) (h : parse_since s = none) :
    fetch_feeds_impl cfg net cat limit pfl (some s) now =
      .error "Parameter 'since_date' must be in YYYY-mm-dd format." ∧
    fetch_feeds_impl cfg net cat limit pfl none now =
      fetch_feeds_since cfg net cat limit pfl (now - sevenDays) :=
  ⟨by simp only [fetch_feeds_impl, h], rfl⟩

/-- Witness for C9_since_handling at the malformed date `"13/31/2024"`. -/
theorem C9_witness :
    parse_since "13/31/2024" = none ∧
      fetch_feeds_impl [("c", ["u"])] (fun _ => (⟨200, []⟩ : FeedResponse))
        "c" 20 5 (some "13/31/2024") 0 =
        .error "Parameter 'since_date' must be in YYYY-mm-dd format." ∧
      fetch_feeds_impl [("c", ["u"])] (fun _ => (⟨200, []⟩ : FeedResponse))
        "c" 20 5 none 0 =
        fetch_feeds_since [("c", ["u"])] (fun _ => (⟨200, []⟩ : FeedResponse))
          "c" 20 5 (0 - sevenDays) :=
  ⟨by decide,
    (C9_since_handling [("c", ["u"])] (fun _ => (⟨200, []⟩ : FeedResponse))
      "c" 20 5 0 "13/31/2024" (by decide)).1,
    (C9_since_handling [("c", ["u"])] (fun _ => (⟨200, []⟩ : FeedResponse))
      "c" 20 5 0 "13/31/2024" (by decide)).2⟩

/-- Witness for C1_amended: a feed entry without a native parsed-time tuple
whose published string renormalizes above the cutoff. -/
theorem C1_witness :
    parse_since "2024-06-01" = some 63852796800000000 ∧
      fetch_feeds_impl [("c", ["u"])]
        (fun _ => (⟨200, [⟨none, "2024-06-05", "", "", "t2", "l2", "s2"⟩]⟩ : FeedResponse))
        "c" 20 5 (some "2024-06-01") 0 =
        .ok "- **[t2](l2)** (2024-06-05)\n  s2..."
          [⟨"t2", "l2", "s2", "2024-06-05", "u"⟩] ∧
      ∀ a ∈ ([⟨"t2", "l2", "s2", "2024-06-05", "u"⟩] : List ArticleOut),
        ∃ url e, url ∈ feedUrlsOf [("c", ["u"])] "c" ∧
          e ∈ ((fun _ => (⟨200, [⟨none, "2024-06-05", "", "", "t2", "l2", "s2"⟩]⟩ : FeedResponse)) url).entries ∧
          a.published = entryDateStr e ∧
          ((e.published_parsed = none ∧
              ∃ t, parse_date a.published = .ok (some t) ∧ 63852796800000000 ≤ t) ∨
            (∃ tt m, e.published_parsed = some tt ∧ tupleMicros tt = .ok m ∧
              63852796800000000 ≤ m)) :=
  ⟨by decide, by decide,
    C1_amended [("c", ["u"])]
      (fun _ => (⟨200, [⟨none, "2024-06-05", "", "", "t2", "l2", "s2"⟩]⟩ : FeedResponse))
      "c" "2024-06-01" 20 5 0 63852796800000000
      "- **[t2](l2)** (2024-06-05)\n  s2..."
      [⟨"t2", "l2", "s2", "2024-06-05", "u"⟩] (by decide) (by decide)⟩

/-- Witness for C2_sorted: two articles from one feed come back sorted by
their renormalized instants, newest first. -/
theorem C2_witness :
    fetch_feeds_impl [("c", ["u"])]
        (fun _ => (⟨200, [⟨none, "2024-06-05", "", "", "t2", "l2", "s2"⟩,
          ⟨none, "2024-06-06", "", "", "t3", "l3", "s3"⟩]⟩ : FeedResponse))
        "c" 20 5 (some "2024-06-01") 0 =
      .ok "- **[t3](l3)** (2024-06-06)\n  s3...\n- **[t2](l2)** (2024-06-05)\n  s2..."
        [⟨"t3", "l3", "s3", "2024-06-06", "u"⟩,
          ⟨"t2", "l2", "s2", "2024-06-05", "u"⟩] ∧
      List.Pairwise (fun x y => renormKey y ≤ renormKey x)
        ([⟨"t3", "l3", "s3", "2024-06-06", "u"⟩,
          ⟨"t2", "l2", "s2", "2024-06-05", "u"⟩] : List ArticleOut) ∧
      ∀ a ∈ ([⟨"t3", "l3", "s3", "2024-06-06", "u"⟩,
          ⟨"t2", "l2", "s2", "2024-06-05", "u"⟩] : List ArticleOut),
        ∀ t, parse_date a.published = .ok (some t) → datetimeMinMicros ≤ t :=
  ⟨by decide,
    (C2_sorted [("c", ["u"])]
      (fun _ => (⟨200, [⟨none, "2024-06-05", "", "", "t2", "l2", "s2"⟩,
        ⟨none, "2024-06-06", "", "", "t3", "l3", "s3"⟩]⟩ : FeedResponse))
      "c" 20 5 (some "2024-06-01") 0
      "- **[t3](l3)** (2024-06-06)\n  s3...\n- **[t2](l2)** (2024-06-05)\n  s2..."
      [⟨"t3", "l3", "s3", "2024-06-06", "u"⟩,
        ⟨"t2", "l2", "s2", "2024-06-05", "u"⟩] (by decide)).1,
    (C2_sorted [("c", ["u"])]
      (fun _ => (⟨200, [⟨none, "2024-06-05", "", "", "t2", "l2", "s2"⟩,
        ⟨none, "2024-06-06", "", "", "t3", "l3", "s3"⟩]⟩ : FeedResponse))
      "c" 20 5 (some "2024-06-01") 0
      "- **[t3](l3)** (2024-06-06)\n  s3...\n- **[t2](l2)** (2024-06-05)\n  s2..."
      [⟨"t3", "l3", "s3", "2024-06-06", "u"⟩,
        ⟨"t2", "l2", "s2", "2024-06-05", "u"⟩] (by decide)).2⟩

/-- Witness for C3_amended at nonnegative limits 20 and 5. -/
theorem C3_witness :
    (0 : Int) ≤ 20 ∧ (0 : Int) ≤ 5 ∧
      fetch_feeds_impl [("c", ["u"])]
        (fun _ => (⟨200, [⟨none, "2024-06-05", "", "", "t2", "l2", "s2"⟩]⟩ : FeedResponse))
        "c" 20 5 (some "2024-06-01") 0 =
        .ok "- **[t2](l2)** (2024-06-05)\n  s2..."
          [⟨"t2", "l2", "s2", "2024-06-05", "u"⟩] ∧
      ((([(⟨"t2", "l2", "s2", "2024-06-05", "u"⟩ : ArticleOut)]).length : Int) ≤ 20 ∧
        ∀ url σ, ((fetch_single_feed
          (fun _ => (⟨200, [⟨none, "2024-06-05", "", "", "t2", "l2", "s2"⟩]⟩ : FeedResponse))
          url σ 5).length : Int) ≤ 5) :=
  ⟨by decide, by decide, by decide,
    C3_amended [("c", ["u"])]
      (fun _ => (⟨200, [⟨none, "2024-06-05", "", "", "t2", "l2", "s2"⟩]⟩ : FeedResponse))
      "c" 20 5 (some "2024-06-01") 0
      "- **[t2](l2)** (2024-06-05)\n  s2..."
      [⟨"t2", "l2", "s2", "2024-06-05", "u"⟩]
      (by decide) (by decide) (by decide)⟩

/-- Witness for C4_filter: an undated entry is dropped while a tuple-bearing
entry with an unparseable string is retained through its tuple. -/
theorem C4_witness :
    filter_entries_since
        [⟨none, "garbage", "", "", "tA", "lA", "sA"⟩,
          ⟨some ⟨2024, 6, 2, 0, 0, 0⟩, "x", "", "", "tB", "lB", "sB"⟩]
        63852796800000000 5 =
      .ok [⟨some ⟨2024, 6, 2, 0, 0, 0⟩, "x", "", "", "tB", "lB", "sB"⟩] ∧
    filter_candidates 63852796800000000
        [⟨none, "garbage", "", "", "tA", "lA", "sA"⟩,
          ⟨some ⟨2024, 6, 2, 0, 0, 0⟩, "x", "", "", "tB", "lB", "sB"⟩] =
      .ok [(⟨some ⟨2024, 6, 2, 0, 0, 0⟩, "x", "", "", "tB", "lB", "sB"⟩,
        63852883200000000)] ∧
    ((∀ e ∈ [(⟨none, "garbage", "", "", "tA", "lA", "sA"⟩ : Entry),
        ⟨some ⟨2024, 6, 2, 0, 0, 0⟩, "x", "", "", "tB", "lB", "sB"⟩],
        e.published_parsed = none → parse_date (entryDateStr e) = .ok none →
        e ∉ [(⟨some ⟨2024, 6, 2, 0, 0, 0⟩, "x", "", "", "tB", "lB", "sB"⟩ : Entry)]) ∧
      (∀ e ∈ [(⟨none, "garbage", "", "", "tA", "lA", "sA"⟩ : Entry),
        ⟨some ⟨2024, 6, 2, 0, 0, 0⟩, "x", "", "", "tB", "lB", "sB"⟩],
        ∀ tt m, e.published_parsed = some tt → tupleMicros tt = .ok m →
        ((e, m) ∈ [(⟨some ⟨2024, 6, 2, 0, 0, 0⟩, "x", "", "", "tB", "lB", "sB"⟩,
          (63852883200000000 : Int))] ↔ (63852796800000000 : Int) ≤ m))) :=
  ⟨by decide, by decide,
    C4_filter
      [⟨none, "garbage", "", "", "tA", "lA", "sA"⟩,
        ⟨some ⟨2024, 6, 2, 0, 0, 0⟩, "x", "", "", "tB", "lB", "sB"⟩]
      63852796800000000 5
      [⟨some ⟨2024, 6, 2, 0, 0, 0⟩, "x", "", "", "tB", "lB", "sB"⟩]
      [(⟨some ⟨2024, 6, 2, 0, 0, 0⟩, "x", "", "", "tB", "lB", "sB"⟩,
        63852883200000000)]
      (by decide) (by decide)⟩

/-- Witness for C10_deterministic: two feeds fetched with opposite
completion orders produce the same result. -/
theorem C10_witness :
    schedComplete (feedUrlsOf [("c", ["u", "v"])] "c").length [0, 1] ∧
      schedComplete (feedUrlsOf [("c", ["u", "v"])] "c").length [1, 0] ∧
      fetch_feeds_sched [("c", ["u", "v"])]
          (fun _ => (⟨200, [⟨none, "2024-06-05", "", "", "t2", "l2", "s2"⟩]⟩ : FeedResponse))
          "c" 20 5 (some "2024-06-01") 0 [0, 1] =
        fetch_feeds_sched [("c", ["u", "v"])]
          (fun _ => (⟨200, [⟨none, "2024-06-05", "", "", "t2", "l2", "s2"⟩]⟩ : FeedResponse))
          "c" 20 5 (some "2024-06-01") 0 [1, 0] :=
  ⟨by unfold schedComplete; decide, by unfold schedComplete; decide,
    C10_deterministic [("c", ["u", "v"])]
      (fun _ => (⟨200, [⟨none, "2024-06-05", "", "", "t2", "l2", "s2"⟩]⟩ : FeedResponse))
      "c" 20 5 "2024-06-01" 0 [0, 1] [1, 0]
      (by unfold schedComplete; decide) (by unfold schedComplete; decide)⟩
